import Mathlib

/-!
# Khumbuza task tracker — verification of the spec against the source

Shallow embedding of the two source files:

* `src/khumbuza.py` — the four Task Store operations `add`, `list`,
  `complete`, `remove`, each a handful of parameterized SQL statements
  over the `task` table, modelled below as pure functions over an
  explicit database state (`DB`, a list of rows plus the AUTOINCREMENT
  counter).  Clock reads (`CURRENT_TIMESTAMP`, `date.today()`) are
  passed in as parameters.
* `src/setup_db.py` — the one-time bootstrap, modelled as a transition
  on the set of existing tables plus the embedded schema constants.

Conventions of the embedding:

* SQLite TEXT comparison under the default BINARY collation is byte-wise
  `memcmp`; on UTF-8 encoded strings this is exactly code-point
  lexicographic order, modelled by `listLtB` on `String.data`.
* Python truthiness of the optional CLI arguments (`if due:`,
  `if remind:`) is modelled explicitly: `None` and `""` (resp. `0`) are
  falsy.
* `datetime.strptime(s, '%Y-%m-%d')` is modelled by `parseYmd`,
  following CPython's `_strptime` regexes: `%Y` is exactly four digits,
  `%m` matches `1[0-2]|0[1-9]|[1-9]`, `%d` matches
  `3[01]|[12]\d|0[1-9]|[1-9]`, the whole string must be consumed, and
  the resulting triple must be a real calendar date (month length and
  leap years as in `datetime.date`).
-/

namespace Khumbuza

/-! ## Calendar dates -/

/-- A calendar date as the triple produced by `datetime.strptime`. -/
structure DateYMD where
  year : Nat
  month : Nat
  day : Nat
deriving DecidableEq, Repr

/-- Gregorian leap-year rule, as used by `datetime.date`. -/
def isLeap (y : Nat) : Bool :=
  (y % 4 == 0 && y % 100 != 0) || y % 400 == 0

/-- Number of days in month `m` of year `y`, as validated by `datetime.date`. -/
def monthLength (y m : Nat) : Nat :=
  if m == 2 then (if isLeap y then 29 else 28)
  else if m == 4 || m == 6 || m == 9 || m == 11 then 30
  else 31

/-- A triple that `datetime.date` accepts (year 1..9999, valid month and day). -/
def validDate (d : DateYMD) : Prop :=
  1 ≤ d.year ∧ d.year ≤ 9999 ∧ 1 ≤ d.month ∧ d.month ≤ 12 ∧
    1 ≤ d.day ∧ d.day ≤ monthLength d.year d.month

instance (d : DateYMD) : Decidable (validDate d) := by
  unfold validDate; infer_instance

/-- Calendar order on date triples (lexicographic year, month, day). -/
def dateLt (a b : DateYMD) : Bool :=
  a.year < b.year ||
    (a.year == b.year && (a.month < b.month ||
      (a.month == b.month && a.day < b.day)))

/-- Non-strict calendar order on date triples. -/
def dateLe (a b : DateYMD) : Bool :=
  dateLt a b || a == b

/-- Successor day in the proleptic Gregorian calendar
(`date + timedelta(days=1)`). -/
def nextDay (d : DateYMD) : DateYMD :=
  if d.day < monthLength d.year d.month then ⟨d.year, d.month, d.day + 1⟩
  else if d.month < 12 then ⟨d.year, d.month + 1, 1⟩
  else ⟨d.year + 1, 1, 1⟩

/-- `date + timedelta(days=n)`. -/
def addDays (d : DateYMD) : Nat → DateYMD
  | 0 => d
  | n + 1 => nextDay (addDays d n)

/-! ## Digit strings, `strptime` parsing, ISO formatting -/

/-- ASCII decimal digit test. -/
def isDig (c : Char) : Bool := '0' ≤ c && c ≤ '9'

/-- Numeric value of an ASCII digit character. -/
def digToNat (c : Char) : Nat := c.toNat - 48

/-- All characters are ASCII digits. -/
def allDigs (cs : List Char) : Bool := cs.all isDig

/-- Value of a digit string, most significant digit first
(what Python's `int()` computes on the matched field). -/
def fieldVal : List Char → Nat
  | [] => 0
  | c :: cs => digToNat c * 10 ^ cs.length + fieldVal cs

/-- Split a character list at every `'-'` (the literal separators of the
`%Y-%m-%d` format). -/
def splitDash : List Char → List (List Char)
  | [] => [[]]
  | c :: rest =>
    if c = '-' then [] :: splitDash rest
    else
      match splitDash rest with
      | [] => [[c]]
      | f :: fs => (c :: f) :: fs

/-- Inverse of `splitDash`: re-intercalate fields with `'-'`. -/
def joinDash : List (List Char) → List Char
  | [] => []
  | [f] => f
  | f :: g :: fs => f ++ '-' :: joinDash (g :: fs)

/-- `datetime.strptime(s, '%Y-%m-%d')`, returning the date triple on
success: exactly three dash-separated fields, the year exactly four
digits, month and day one or two digits, whole string consumed, and the
triple a real calendar date. -/
def parseYmd (s : String) : Option DateYMD :=
  match splitDash s.data with
  | [ys, ms, ds] =>
    if ys.length = 4 && allDigs ys && ms.length ≤ 2 && allDigs ms &&
        ds.length ≤ 2 && allDigs ds then
      if 1 ≤ fieldVal ys && 1 ≤ fieldVal ms && fieldVal ms ≤ 12 &&
          1 ≤ fieldVal ds &&
          fieldVal ds ≤ monthLength (fieldVal ys) (fieldVal ms) then
        some ⟨fieldVal ys, fieldVal ms, fieldVal ds⟩
      else none
    else none
  | _ => none

/-- The ASCII digit character for `n < 10`. -/
def digitChar (n : Nat) : Char := Char.ofNat (48 + n)

/-- Two-digit zero-padded decimal rendering. -/
def pad2 (n : Nat) : List Char := [digitChar (n / 10), digitChar (n % 10)]

/-- Four-digit zero-padded decimal rendering. -/
def pad4 (n : Nat) : List Char :=
  [digitChar (n / 1000), digitChar (n / 100 % 10),
   digitChar (n / 10 % 10), digitChar (n % 10)]

/-- `date.isoformat()`: zero-padded `YYYY-MM-DD`. -/
def isoDate (d : DateYMD) : String :=
  ⟨pad4 d.year ++ '-' :: (pad2 d.month ++ '-' :: pad2 d.day)⟩

/-! ## SQLite BINARY text order -/

/-- Strict byte-wise (code-point) lexicographic order on character lists:
SQLite's BINARY collation on UTF-8 text. -/
def listLtB : List Char → List Char → Bool
  | [], [] => false
  | [], _ :: _ => true
  | _ :: _, [] => false
  | a :: as, b :: bs =>
    if a < b then true else if b < a then false else listLtB as bs

/-- Strict BINARY order on strings. -/
def strLtB (s t : String) : Bool := listLtB s.data t.data

/-- Non-strict BINARY order on strings; `due_date <= ?` in SQL compares
TEXT values this way. -/
def strLeB (s t : String) : Bool := !(strLtB t s)

/-! ## The persisted state

One row of the `task` table, with the columns `khumbuza.py` reads or
writes.  Timestamps (`created_date`, `completed_date`, `deleted_date`,
filled from `CURRENT_TIMESTAMP`) are opaque clock values, modelled as
`Nat`. -/

structure Task where
  id : Nat
  title : String
  description : Option String
  due_date : Option String
  completed : Bool
  recurrence_type : Option String
  recurrence_interval : Nat
  advance_notice_days : Int
  created_date : Nat
  completed_date : Option Nat
  deleted_date : Option Nat
deriving DecidableEq, Repr

/-- Database state: the rows of the `task` table in rowid order, plus the
AUTOINCREMENT counter that will supply the next `id`. -/
structure DB where
  tasks : List Task
  nextId : Nat
deriving DecidableEq, Repr

/-- The error taxonomy of the spec (§7); `khumbuza.py` reports each case
with a distinct `click.echo` message and an early `return`. -/
inductive TaskError where
  | validationError (msg : String)
  | notFoundError
  | alreadyCompletedError
  | notCompletedError
deriving DecidableEq, Repr

instance {ε α : Type} [DecidableEq ε] [DecidableEq α] :
    DecidableEq (Except ε α) := fun x y =>
  match x, y with
  | .error a, .error b =>
    if h : a = b then .isTrue (by rw [h]) else .isFalse (by simp [h])
  | .error _, .ok _ => .isFalse (by simp)
  | .ok _, .error _ => .isFalse (by simp)
  | .ok a, .ok b =>
    if h : a = b then .isTrue (by rw [h]) else .isFalse (by simp [h])

/-- Outcome of one operation: the value or error it reports, the database
it leaves behind, and whether it returned while still holding the
`sqlite3` connection it had opened (`connLeak = true` on an exit path
with no `conn.close()` after a `get_db_connection()`). -/
structure OpResult (α : Type) where
  result : Except TaskError α
  db : DB
  connLeak : Bool
deriving DecidableEq, Repr

/-! ## `add` -/

/-- The due-date validation of `add` (khumbuza.py lines 53-61):
`if due:` is Python truthiness, so `None` and `""` skip the check and
leave `due_date = None`; otherwise the string must `strptime` as
`%Y-%m-%d` and is then stored verbatim. -/
def dueCheck : Option String → Except TaskError (Option String)
  | none => .ok none
  | some s =>
    if s = "" then .ok none
    else
      match parseYmd s with
      | some _ => .ok (some s)
      | none => .error (.validationError "Invalid date format. Use YYYY-MM-DD")

/-- `sum(recurrence_flags)` for the three flag booleans. -/
def boolSum (l : List Bool) : Nat := (l.filter (fun b => b)).length

/-- The reminder validation of `add` (khumbuza.py lines 79-85):
`if remind:` is Python truthiness, so `None` and `0` leave the advance
notice at `0`; a negative value is rejected. -/
def remindCheck : Option Int → Except TaskError Int
  | none => .ok 0
  | some r =>
    if r = 0 then .ok 0
    else if r < 0 then .error (.validationError "Reminder days cannot be negative")
    else .ok r

/-- The `add` command (khumbuza.py lines 49-98): validate the due date,
then the recurrence flags, then the reminder — each failure prints and
returns before any connection is opened — then INSERT one row.  The
INSERT names only (title, description, due_date, recurrence_type,
advance_notice_days); the remaining columns take their schema defaults:
`completed = 0`, `recurrence_interval = 1`,
`created_date = CURRENT_TIMESTAMP` (= `now`), and NULL timestamps. -/
def addOp (db : DB) (title : String) (due : Option String)
    (description : Option String) (weekly monthly yearly : Bool)
    (remind : Option Int) (now : Nat) : OpResult Nat :=
  match dueCheck due with
  | .error e => ⟨.error e, db, false⟩
  | .ok due_date =>
    if boolSum [weekly, monthly, yearly] > 1 then
      ⟨.error (.validationError "Only one recurrence type allowed"), db, false⟩
    else
      let recurrence_type : Option String :=
        if weekly then some "weekly"
        else if monthly then some "monthly"
        else if yearly then some "yearly"
        else none
      match remindCheck remind with
      | .error e => ⟨.error e, db, false⟩
      | .ok advance_notice_days =>
        let t : Task :=
          { id := db.nextId, title := title, description := description,
            due_date := due_date, completed := false,
            recurrence_type := recurrence_type, recurrence_interval := 1,
            advance_notice_days := advance_notice_days, created_date := now,
            completed_date := none, deleted_date := none }
        ⟨.ok db.nextId, ⟨db.tasks ++ [t], db.nextId + 1⟩, false⟩

/-! ## `list` -/

/-- One row of the `SELECT id, title, due_date, description` result. -/
structure Row where
  id : Nat
  title : String
  due_date : Option String
  description : Option String
deriving DecidableEq, Repr

/-- Projection of a task row onto the selected columns. -/
def rowOf (t : Task) : Row := ⟨t.id, t.title, t.due_date, t.description⟩

/-- `ORDER BY due_date ASC, id ASC`: in SQLite, ASC puts NULL first;
TEXT values compare under the BINARY collation; equal keys leave the
relative order unconstrained, so ties extend to `id`. -/
def dueKeyLt : Option String → Option String → Bool
  | none, none => false
  | none, some _ => true
  | some _, none => false
  | some s, some t => strLtB s t

/-- The total preorder realised by `ORDER BY due_date ASC, id ASC`. -/
def rowLe (a b : Row) : Prop :=
  dueKeyLt a.due_date b.due_date = true ∨
    (a.due_date = b.due_date ∧ a.id ≤ b.id)

instance : DecidableRel rowLe := by
  unfold rowLe; infer_instance

/-- The WHERE clause of `list` (khumbuza.py lines 107-124): with
`--all`, `completed = 0`; otherwise additionally
`due_date IS NULL OR due_date <= cutoff`, the cutoff being
`(date.today() + timedelta(days=days)).isoformat()`.  Neither branch
filters on `deleted_date`. -/
def listKeep (show_all : Bool) (cutoff : String) (t : Task) : Bool :=
  if show_all then !t.completed
  else
    !t.completed &&
      (match t.due_date with
       | none => true
       | some s => strLeB s cutoff)

/-- The `list` command (khumbuza.py lines 103-127): filter, project, and
sort by `(due_date, id)`.  Both exit paths close the connection. -/
def listOp (db : DB) (show_all : Bool) (cutoff : String) : List Row :=
  List.insertionSort rowLe ((db.tasks.filter (listKeep show_all cutoff)).map rowOf)

/-! ## `complete` and `remove` -/

/-- The guarded read both `complete` and `remove` start with:
`SELECT title, completed FROM task WHERE id = ? AND deleted_date IS
NULL` followed by `fetchone()` (first matching row). -/
def findTask (db : DB) (task_id : Nat) : Option Task :=
  db.tasks.find? (fun t => t.id == task_id && t.deleted_date == none)

/-- Row update of `complete`'s
`UPDATE task SET completed = 1, completed_date = CURRENT_TIMESTAMP WHERE id = ?`. -/
def setCompleted (now task_id : Nat) (t : Task) : Task :=
  if t.id == task_id then { t with completed := true, completed_date := some now }
  else t

/-- The `complete` command (khumbuza.py lines 146-180).  Every exit path
runs `conn.close()`. -/
def completeOp (db : DB) (task_id now : Nat) : OpResult String :=
  match findTask db task_id with
  | none => ⟨.error .notFoundError, db, false⟩
  | some t =>
    if t.completed then ⟨.error .alreadyCompletedError, db, false⟩
    else
      ⟨.ok t.title, ⟨db.tasks.map (setCompleted now task_id), db.nextId⟩, false⟩

/-- Row update of `remove`'s
`UPDATE task SET deleted_date = CURRENT_TIMESTAMP WHERE id = ?`. -/
def setDeleted (now task_id : Nat) (t : Task) : Task :=
  if t.id == task_id then { t with deleted_date := some now }
  else t

/-- The `remove` command (khumbuza.py lines 185-220).  The
not-completed-and-no-force branch (lines 205-208) returns without
`conn.close()`, unlike every other exit path of the four commands; the
embedding records this as `connLeak = true`. -/
def removeOp (db : DB) (task_id : Nat) (force : Bool) (now : Nat) :
    OpResult String :=
  match findTask db task_id with
  | none => ⟨.error .notFoundError, db, false⟩
  | some t =>
    if !t.completed && !force then ⟨.error .notCompletedError, db, true⟩
    else
      ⟨.ok t.title, ⟨db.tasks.map (setDeleted now task_id), db.nextId⟩, false⟩

/-! ## The bootstrap script `setup_db.py` and its schema constants -/

/-- The store file `setup_db.py` writes (its line 11). -/
def SETUP_DB_FILE : String := "/mnt/ssd/Applications/khumbuza/schedule.db"

/-- The store file `khumbuza.py` opens (its line 14). -/
def KHUMBUZA_DB_FILE : String := "/mnt/ssd/Applications/khumbuza/tasks.db"

/-- The table `setup_db.py` creates. -/
def setupTableName : String := "tasks"

/-- The columns of the `CREATE TABLE` statement in `setup_db.py`
(lines 25-38), in order. -/
def setupColumns : List String :=
  ["id", "title", "description", "due_date", "completed",
   "recurrence_type", "recurrence_interval", "advance_notice_days",
   "created_date", "completed_date"]

/-- The table every statement of `khumbuza.py` targets. -/
def khumbuzaTableName : String := "task"

/-- The columns the four operations of `khumbuza.py` reference. -/
def khumbuzaReferencedColumns : List String :=
  ["id", "title", "description", "due_date", "completed",
   "recurrence_type", "advance_notice_days", "completed_date",
   "deleted_date"]

/-- `setup_database()` (setup_db.py lines 13-41) as a transition on the
set of tables existing in the store file: its `CREATE TABLE tasks (...)`
has no `IF NOT EXISTS`, so SQLite raises `OperationalError` when the
table already exists, and creates it otherwise. -/
def setup_database (tables : List String) : Except String (List String) :=
  if setupTableName ∈ tables then .error "table tasks already exists"
  else .ok (tables ++ [setupTableName])

/-- The guard predicate both commands use on a row. -/
def rowMatches (i : Nat) (t : Task) : Bool :=
  t.id == i && t.deleted_date == none

/-- The due date `add` actually stores: the supplied string verbatim
when it is present and non-empty, otherwise NULL. -/
def storedDue : Option String → Option String
  | none => none
  | some s => if s = "" then none else some s

/-- The advance notice `add` actually stores: the supplied value, or the
default 0. -/
def advanceOf : Option Int → Int
  | none => 0
  | some r => r

/-- The inputs `add` rejects: a present non-empty due string that fails
`strptime('%Y-%m-%d')`, more than one recurrence flag, or a negative
reminder.  (The title is not inspected at all.) -/
def addInvalid (due : Option String) (weekly monthly yearly : Bool)
    (remind : Option Int) : Prop :=
  (∃ s, due = some s ∧ s ≠ "" ∧ parseYmd s = none) ∨
  1 < boolSum [weekly, monthly, yearly] ∨
  (∃ r, remind = some r ∧ r < 0)

/-! ## Concrete fixtures used by the counterexample theorems -/

/-- A freshly added task: incomplete, not deleted, no due date. -/
def sampleTask : Task :=
  { id := 1, title := "t", description := none, due_date := none,
    completed := false, recurrence_type := none, recurrence_interval := 1,
    advance_notice_days := 0, created_date := 0, completed_date := none,
    deleted_date := none }

/-- A store holding just `sampleTask`. -/
def sampleDB : DB := ⟨[sampleTask], 2⟩

/-- A store holding one incomplete task whose accepted due date is the
unpadded string `"2025-1-5"` (January 5, 2025). -/
def unpaddedDB : DB := ⟨[{ sampleTask with due_date := some "2025-1-5" }], 2⟩

/-- A store holding two incomplete tasks, one due `"2025-1-5"`
(January 5) and one due `"2025-02-01"` (February 1). -/
def twoDateDB : DB :=
  ⟨[{ sampleTask with id := 1, due_date := some "2025-1-5" },
    { sampleTask with id := 2, due_date := some "2025-02-01" }], 3⟩

end Khumbuza

namespace Khumbuza

set_option maxRecDepth 8192

/-! ## Claim theorems -/

/-- C1.  The code violates the claim: after `remove` succeeds on an
incomplete task with `force` (here task #1 in `sampleDB`, removed at
time 5), `complete` and `remove` do fail with `NotFoundError` as
claimed, but `list` — whose two queries filter only on `completed = 0`
and never on `deleted_date` (khumbuza.py lines 107-124) — still returns
the removed task, with `show_all` either true or false. -/
theorem removed_task_visible_in_list_bug :
    (removeOp sampleDB 1 true 5).result = .ok "t" ∧
    (completeOp (removeOp sampleDB 1 true 5).db 1 6).result =
      .error .notFoundError ∧
    (removeOp (removeOp sampleDB 1 true 5).db 1 true 6).result =
      .error .notFoundError ∧
    listOp (removeOp sampleDB 1 true 5).db true "" = [⟨1, "t", none, none⟩] ∧
    listOp (removeOp sampleDB 1 true 5).db false (isoDate ⟨2025, 1, 31⟩) =
      [⟨1, "t", none, none⟩] := by
  decide

/-- C2.  The code violates the claim: `setup_db.py` writes
`schedule.db` while `khumbuza.py` opens `tasks.db` (despite the
`must match khumbuza.py` comment in `setup_db.py`), the bootstrap
creates table `tasks` while every operation targets table `task`, and
the created schema has no `deleted_date` column even though `complete`
and `remove` reference one. -/
theorem bootstrap_schema_mismatch_bug :
    SETUP_DB_FILE ≠ KHUMBUZA_DB_FILE ∧
    setupTableName ≠ khumbuzaTableName ∧
    "deleted_date" ∉ setupColumns ∧
    "deleted_date" ∈ khumbuzaReferencedColumns := by
  decide

/-- C3.  The code violates the claim: `remove` on an existing incomplete
non-deleted task without `force` takes the early return at khumbuza.py
lines 205-208, which — alone among the exit paths of the four
operations — never runs `conn.close()`, so the operation terminates
still holding the connection it opened. -/
theorem remove_leaks_connection_bug :
    (removeOp sampleDB 1 false 5).result = .error .notCompletedError ∧
    (removeOp sampleDB 1 false 5).connLeak = true := by
  decide

/-- C4.  The code violates the claim: the `CREATE TABLE tasks (...)` of
`setup_db.py` has no `IF NOT EXISTS`, so a first run on an empty store
succeeds but a second run raises `sqlite3.OperationalError` instead of
being a no-op. -/
theorem setup_database_not_idempotent_bug :
    setup_database [] = .ok ["tasks"] ∧
    setup_database ["tasks"] = .error "table tasks already exists" := by
  decide

/-- C5 counterexample.  The claim says `add` fails with a
`ValidationError` and writes no row when the title is empty; in the code
no such check exists, so `add("")` succeeds, writes one row with an
empty title, and returns id 1.  Likewise a supplied empty-string due
date — which does not parse as `YYYY-MM-DD` — is not rejected: Python's
`if due:` treats it as absent and the insert proceeds with a NULL
due date. -/
theorem add_accepts_empty_title_cex :
    (addOp ⟨[], 1⟩ "" none none false false false none 0).result = .ok 1 ∧
    (addOp ⟨[], 1⟩ "" none none false false false none 0).db.tasks.map
      Task.title = [""] ∧
    (addOp ⟨[], 1⟩ "t" (some "") none false false false none 0).result =
      .ok 1 ∧
    (addOp ⟨[], 1⟩ "t" (some "") none false false false none 0).db.tasks.map
      Task.due_date = [none] := by
  decide

/-- C9 counterexample.  The claim says `list(horizon_days, show_all :=
false)` returns exactly the incomplete tasks due at most today plus
`horizon_days`; with today = 2025-01-01 and horizon 30 the cutoff date
is 2025-01-31, and the incomplete task of `unpaddedDB` — whose accepted
due string `"2025-1-5"` denotes January 5, 2025, within the horizon —
is nonetheless omitted, because the SQL filter compares the stored TEXT
`"2025-1-5"` with the cutoff string `"2025-01-31"` byte-wise, where
`'1' > '0'`. -/
theorem horizon_filter_calendar_cex :
    parseYmd "2025-1-5" = some ⟨2025, 1, 5⟩ ∧
    addDays ⟨2025, 1, 1⟩ 30 = ⟨2025, 1, 31⟩ ∧
    dateLe ⟨2025, 1, 5⟩ (addDays ⟨2025, 1, 1⟩ 30) = true ∧
    (unpaddedDB.tasks.map Task.completed = [false] ∧
      unpaddedDB.tasks.map Task.due_date = [some "2025-1-5"]) ∧
    listOp unpaddedDB false (isoDate (addDays ⟨2025, 1, 1⟩ 30)) = [] := by
  decide

/-! ### Helper lemmas about the guarded read of `complete`/`remove` -/

theorem findTask_def (db : DB) (i : Nat) :
    findTask db i = db.tasks.find? (rowMatches i) := rfl

theorem rowMatches_iff (i : Nat) (t : Task) :
    rowMatches i t = true ↔ t.id = i ∧ t.deleted_date = none := by
  simp [rowMatches]

theorem findTask_eq_none (db : DB) (i : Nat)
    (h : ∀ t ∈ db.tasks, t.id = i → t.deleted_date ≠ none) :
    findTask db i = none := by
  rw [findTask_def, List.find?_eq_none]
  intro t ht hc
  exact h t ht ((rowMatches_iff i t).1 hc).1 ((rowMatches_iff i t).1 hc).2

theorem find?_rowMatches_append (l : List Task) (t0 : Task) (i : Nat)
    (h : l.find? (rowMatches i) = none) :
    (l ++ [t0]).find? (rowMatches i) =
      if rowMatches i t0 then some t0 else none := by
  rw [List.find?_append, h]
  cases hm : rowMatches i t0 <;> simp [List.find?, hm]

theorem rowMatches_setCompleted (i now : Nat) (t : Task) :
    rowMatches i (setCompleted now i t) = rowMatches i t := by
  unfold setCompleted
  by_cases h : t.id = i <;> simp [rowMatches, h]

theorem find?_rowMatches_map_setCompleted (l : List Task) (i now : Nat) :
    (l.map (setCompleted now i)).find? (rowMatches i) =
      (l.find? (rowMatches i)).map (setCompleted now i) := by
  rw [List.find?_map]
  have : rowMatches i ∘ setCompleted now i = rowMatches i :=
    funext fun t => rowMatches_setCompleted i now t
  rw [this]

/-- C6.  The `complete` command behaves as claimed: `NotFoundError`
(store untouched) when every row with the given id is deleted or no row
has it; `AlreadyCompletedError` (store untouched) when the guarded read
finds the task already completed; otherwise it reports the task's title
and rewrites exactly the rows with that id to `completed = true`,
`completed_date = now`.  Consequently on a freshly added task it
succeeds exactly once: the second call fails with
`AlreadyCompletedError`. -/
theorem complete_spec (db : DB) (task_id now : Nat) :
    ((∀ t ∈ db.tasks, t.id = task_id → t.deleted_date ≠ none) →
      (completeOp db task_id now).result = .error .notFoundError ∧
      (completeOp db task_id now).db = db) ∧
    (∀ t, findTask db task_id = some t → t.completed = true →
      (completeOp db task_id now).result = .error .alreadyCompletedError ∧
      (completeOp db task_id now).db = db) ∧
    (∀ t, findTask db task_id = some t → t.completed = false →
      (completeOp db task_id now).result = .ok t.title ∧
      (completeOp db task_id now).db.nextId = db.nextId ∧
      (completeOp db task_id now).db.tasks = db.tasks.map (fun u =>
        if u.id = task_id
        then { u with completed := true, completed_date := some now }
        else u)) ∧
    (∀ (title : String) (now1 now2 now3 : Nat),
      (∀ t ∈ db.tasks, t.id ≠ db.nextId) →
      (addOp db title none none false false false none now1).result =
        .ok db.nextId ∧
      (completeOp (addOp db title none none false false false none now1).db
          db.nextId now2).result = .ok title ∧
      (completeOp (completeOp
          (addOp db title none none false false false none now1).db
          db.nextId now2).db db.nextId now3).result =
        .error .alreadyCompletedError) := by
  refine ⟨?_, ?_, ?_, ?_⟩
  · intro h
    have hf := findTask_eq_none db task_id h
    simp [completeOp, hf]
  · intro t ht hc
    simp [completeOp, ht, hc]
  · intro t ht hc
    refine ⟨by simp [completeOp, ht, hc], by simp [completeOp, ht, hc], ?_⟩
    have : (completeOp db task_id now).db.tasks =
        db.tasks.map (setCompleted now task_id) := by
      simp [completeOp, ht, hc]
    rw [this]
    apply List.map_congr_left
    intro u _
    unfold setCompleted
    by_cases h : u.id = task_id <;> simp [h]
  · intro title now1 now2 now3 hfresh
    have hfind0 : db.tasks.find? (rowMatches db.nextId) = none := by
      rw [List.find?_eq_none]
      intro t ht hc
      exact hfresh t ht ((rowMatches_iff db.nextId t).1 hc).1
    set newT : Task :=
      { id := db.nextId, title := title, description := none,
        due_date := none, completed := false, recurrence_type := none,
        recurrence_interval := 1, advance_notice_days := 0,
        created_date := now1, completed_date := none,
        deleted_date := none } with hnewT
    have ha : addOp db title none none false false false none now1 =
        ⟨.ok db.nextId, ⟨db.tasks ++ [newT], db.nextId + 1⟩, false⟩ := rfl
    have h1 : (db.tasks ++ [newT]).find? (rowMatches db.nextId) = some newT := by
      rw [find?_rowMatches_append _ _ _ hfind0]
      simp [rowMatches, hnewT]
    have hft1 : findTask (⟨db.tasks ++ [newT], db.nextId + 1⟩ : DB)
        db.nextId = some newT := by
      rw [findTask_def]; exact h1
    have hnc : newT.completed = false := rfl
    have hc2 : completeOp (⟨db.tasks ++ [newT], db.nextId + 1⟩ : DB)
        db.nextId now2 =
        ⟨.ok newT.title,
         ⟨(db.tasks ++ [newT]).map (setCompleted now2 db.nextId),
          db.nextId + 1⟩, false⟩ := by
      simp only [completeOp, hft1, hnc, Bool.false_eq_true, if_false]
    have hft2 : findTask
        (⟨(db.tasks ++ [newT]).map (setCompleted now2 db.nextId),
          db.nextId + 1⟩ : DB) db.nextId =
        some (setCompleted now2 db.nextId newT) := by
      rw [findTask_def]
      show ((db.tasks ++ [newT]).map (setCompleted now2 db.nextId)).find?
        (rowMatches db.nextId) = _
      rw [find?_rowMatches_map_setCompleted, h1]
      rfl
    have hcomp : (setCompleted now2 db.nextId newT).completed = true := by
      simp [setCompleted, hnewT]
    refine ⟨by rw [ha], ?_, ?_⟩
    · rw [ha, hc2]
    · rw [ha, hc2]
      simp only [completeOp, hft2, hcomp, if_true]

/-- C7.  The `remove` command behaves as claimed on an existing
non-deleted task: with the task incomplete and `force` false it fails
with `NotCompletedError` and leaves the store untouched; with the task
completed, or incomplete under `force`, it reports the task's title and
rewrites exactly the rows with that id to `deleted_date = now`. -/
theorem remove_spec (db : DB) (task_id : Nat) (force : Bool) (now : Nat)
    (t : Task) (hfind : findTask db task_id = some t) :
    (t.completed = false ∧ force = false →
      (removeOp db task_id force now).result = .error .notCompletedError ∧
      (removeOp db task_id force now).db = db) ∧
    (t.completed = true ∨ (t.completed = false ∧ force = true) →
      (removeOp db task_id force now).result = .ok t.title ∧
      (removeOp db task_id force now).db.nextId = db.nextId ∧
      (removeOp db task_id force now).db.tasks = db.tasks.map (fun u =>
        if u.id = task_id then { u with deleted_date := some now } else u)) := by
  constructor
  · rintro ⟨hc, hf⟩
    simp [removeOp, hfind, hc, hf]
  · intro hcase
    have hguard : (!t.completed && !force) = false := by
      rcases hcase with h | ⟨h1, h2⟩ <;> simp [*]
    refine ⟨by simp [removeOp, hfind, hguard], by simp [removeOp, hfind, hguard], ?_⟩
    have : (removeOp db task_id force now).db.tasks =
        db.tasks.map (setDeleted now task_id) := by
      simp [removeOp, hfind, hguard]
    rw [this]
    apply List.map_congr_left
    intro u _
    unfold setDeleted
    by_cases h : u.id = task_id <;> simp [h]

/-- C6 witness: the parts of `complete_spec` evaluated on concrete
stores — an id no live row has, a live incomplete task, and a fresh
add/complete/complete sequence from the empty store. -/
theorem complete_spec_witness :
    ((completeOp sampleDB 2 9).result = .error .notFoundError ∧
      (completeOp sampleDB 2 9).db = sampleDB) ∧
    (completeOp sampleDB 1 9).result = .ok "t" ∧
    (addOp ⟨[], 1⟩ "x" none none false false false none 0).result = .ok 1 ∧
    (completeOp (addOp ⟨[], 1⟩ "x" none none false false false none 0).db
        1 2).result = .ok "x" ∧
    (completeOp (completeOp
        (addOp ⟨[], 1⟩ "x" none none false false false none 0).db 1 2).db
        1 3).result = .error .alreadyCompletedError := by
  refine ⟨(complete_spec sampleDB 2 9).1 (by decide), ?_, ?_, ?_, ?_⟩
  · exact (((complete_spec sampleDB 1 9).2.2.1) sampleTask (by decide)
      (by decide)).1
  · exact ((complete_spec ⟨[], 1⟩ 1 9).2.2.2 "x" 0 2 3 (by decide)).1
  · exact ((complete_spec ⟨[], 1⟩ 1 9).2.2.2 "x" 0 2 3 (by decide)).2.1
  · exact ((complete_spec ⟨[], 1⟩ 1 9).2.2.2 "x" 0 2 3 (by decide)).2.2

/-- C7 witness: `remove_spec` evaluated on `sampleDB`, whose task #1 is
incomplete and not deleted: without `force` it refuses and leaves the
store untouched, with `force` it reports the title. -/
theorem remove_spec_witness :
    ((removeOp sampleDB 1 false 5).result = .error .notCompletedError ∧
      (removeOp sampleDB 1 false 5).db = sampleDB) ∧
    (removeOp sampleDB 1 true 5).result = .ok "t" := by
  refine ⟨(remove_spec sampleDB 1 false 5 sampleTask (by decide)).1
    ⟨by decide, rfl⟩, ?_⟩
  exact ((remove_spec sampleDB 1 true 5 sampleTask (by decide)).2
    (Or.inr ⟨by decide, rfl⟩)).1

/-! ### Validation behaviour of `add` -/

theorem dueCheck_error_shape {due : Option String} {e : TaskError}
    (h : dueCheck due = .error e) :
    (∃ s, due = some s ∧ s ≠ "" ∧ parseYmd s = none) ∧
      ∃ m, e = .validationError m := by
  match due with
  | none => simp [dueCheck] at h
  | some s =>
    by_cases hs : s = ""
    · simp [dueCheck, hs] at h
    · cases hp : parseYmd s with
      | none =>
        rw [dueCheck, if_neg hs, hp] at h
        exact ⟨⟨s, rfl, hs, hp⟩, _, (Except.error.inj h).symm⟩
      | some d => rw [dueCheck, if_neg hs, hp] at h; exact absurd h (by simp)

theorem remindCheck_error_shape {remind : Option Int} {e : TaskError}
    (h : remindCheck remind = .error e) :
    (∃ r, remind = some r ∧ r < 0) ∧ ∃ m, e = .validationError m := by
  match remind with
  | none => simp [remindCheck] at h
  | some r =>
    by_cases h0 : r = 0
    · simp [remindCheck, h0] at h
    · by_cases hneg : r < 0
      · rw [remindCheck, if_neg h0, if_pos hneg] at h
        exact ⟨⟨r, rfl, hneg⟩, _, (Except.error.inj h).symm⟩
      · rw [remindCheck, if_neg h0, if_neg hneg] at h
        exact absurd h (by simp)

theorem dueCheck_ok_of_valid {due : Option String}
    (h : ∀ s, due = some s → s ≠ "" → parseYmd s ≠ none) :
    dueCheck due = .ok (storedDue due) := by
  match due with
  | none => rfl
  | some s =>
    by_cases hs : s = ""
    · simp [dueCheck, storedDue, hs]
    · cases hp : parseYmd s with
      | none => exact absurd hp (h s rfl hs)
      | some d => simp [dueCheck, storedDue, hs, hp]

theorem remindCheck_ok_of_valid {remind : Option Int}
    (h : ∀ r, remind = some r → ¬r < 0) :
    remindCheck remind = .ok (advanceOf remind) := by
  match remind with
  | none => rfl
  | some r =>
    by_cases h0 : r = 0
    · simp [remindCheck, advanceOf, h0]
    · simp [remindCheck, advanceOf, h0, h r rfl]

theorem addOp_due_error (db : DB) (title : String)
    (description : Option String) (weekly monthly yearly : Bool)
    (remind : Option Int) (now : Nat) {due : Option String} {e : TaskError}
    (hdc : dueCheck due = .error e) :
    addOp db title due description weekly monthly yearly remind now =
      ⟨.error e, db, false⟩ := by
  unfold addOp
  rw [hdc]

theorem addOp_rec_error (db : DB) (title : String)
    (description : Option String) (weekly monthly yearly : Bool)
    (remind : Option Int) (now : Nat) {due od : Option String}
    (hdc : dueCheck due = .ok od)
    (hrec : boolSum [weekly, monthly, yearly] > 1) :
    addOp db title due description weekly monthly yearly remind now =
      ⟨.error (.validationError "Only one recurrence type allowed"), db,
       false⟩ := by
  unfold addOp
  rw [hdc]
  simp only [hrec, if_true]

theorem addOp_remind_error (db : DB) (title : String)
    (description : Option String) (weekly monthly yearly : Bool)
    (now : Nat) {due od : Option String} {remind : Option Int}
    {e : TaskError} (hdc : dueCheck due = .ok od)
    (hrec : ¬boolSum [weekly, monthly, yearly] > 1)
    (hr : remindCheck remind = .error e) :
    addOp db title due description weekly monthly yearly remind now =
      ⟨.error e, db, false⟩ := by
  unfold addOp
  rw [hdc]
  simp only [hrec, if_false, hr]

theorem addOp_of_valid (db : DB) (title : String) (due : Option String)
    (description : Option String) (weekly monthly yearly : Bool)
    (remind : Option Int) (now : Nat)
    (hinv : ¬addInvalid due weekly monthly yearly remind) :
    addOp db title due description weekly monthly yearly remind now =
      ⟨.ok db.nextId,
       ⟨db.tasks ++
          [{ id := db.nextId, title := title, description := description,
             due_date := storedDue due, completed := false,
             recurrence_type :=
               if weekly then some "weekly"
               else if monthly then some "monthly"
               else if yearly then some "yearly"
               else none,
             recurrence_interval := 1,
             advance_notice_days := advanceOf remind, created_date := now,
             completed_date := none, deleted_date := none }],
        db.nextId + 1⟩, false⟩ := by
  unfold addInvalid at hinv
  push_neg at hinv
  obtain ⟨h1, h2, h3⟩ := hinv
  have hd : dueCheck due = .ok (storedDue due) := dueCheck_ok_of_valid h1
  have hr : remindCheck remind = .ok (advanceOf remind) :=
    remindCheck_ok_of_valid fun r hrr => not_lt.2 (h3 r hrr)
  have hrec : ¬boolSum [weekly, monthly, yearly] > 1 := Nat.not_lt.2 h2
  unfold addOp
  rw [hd]
  simp only [hrec, if_false, hr]

/-- C5 (amended).  The `add` command fails with a `ValidationError` and
writes no row exactly when a supplied non-empty due string does not
parse under `%Y-%m-%d`, more than one recurrence flag is set, or the
reminder is negative; the title is never checked (an empty title is
accepted), and a supplied empty due string is treated as absent.  For
every other input it appends exactly one row — incomplete, not deleted,
with the due string stored verbatim — and returns the newly assigned
id. -/
theorem add_validation_amended (db : DB) (title : String)
    (due : Option String) (description : Option String)
    (weekly monthly yearly : Bool) (remind : Option Int) (now : Nat) :
    ((∃ m, (addOp db title due description weekly monthly yearly remind
        now).result = .error (.validationError m)) ↔
      addInvalid due weekly monthly yearly remind) ∧
    (addInvalid due weekly monthly yearly remind →
      (addOp db title due description weekly monthly yearly remind now).db =
        db) ∧
    (¬addInvalid due weekly monthly yearly remind →
      (addOp db title due description weekly monthly yearly remind
          now).result = .ok db.nextId ∧
      (addOp db title due description weekly monthly yearly remind
          now).db.nextId = db.nextId + 1 ∧
      ∃ t, (addOp db title due description weekly monthly yearly remind
          now).db.tasks = db.tasks ++ [t] ∧
        t.id = db.nextId ∧ t.title = title ∧ t.description = description ∧
        t.completed = false ∧ t.deleted_date = none ∧
        t.completed_date = none ∧ t.created_date = now ∧
        t.due_date = storedDue due ∧
        t.advance_notice_days = advanceOf remind ∧
        (∀ s, due = some s → s ≠ "" → t.due_date = some s) ∧
        ((due = none ∨ due = some "") → t.due_date = none)) := by
  by_cases hinv : addInvalid due weekly monthly yearly remind
  · have herr : ∃ m,
        addOp db title due description weekly monthly yearly remind now =
          ⟨.error (.validationError m), db, false⟩ := by
      rcases hdc : dueCheck due with e | od
      · obtain ⟨-, m, rfl⟩ := dueCheck_error_shape hdc
        exact ⟨m, addOp_due_error db title description weekly monthly yearly
          remind now hdc⟩
      · by_cases hrec : boolSum [weekly, monthly, yearly] > 1
        · exact ⟨_, addOp_rec_error db title description weekly monthly
            yearly remind now hdc hrec⟩
        · rcases hinv with ⟨s, hs, hne, hp⟩ | hrec' | ⟨r, hrr, hneg⟩
          · rw [hs] at hdc
            simp [dueCheck, hne, hp] at hdc
          · exact absurd hrec' hrec
          · have hre : remindCheck remind =
                .error (.validationError "Reminder days cannot be negative") := by
              rw [hrr, remindCheck, if_neg (ne_of_lt hneg), if_pos hneg]
            exact ⟨_, addOp_remind_error db title description weekly monthly
              yearly now hdc hrec hre⟩
    obtain ⟨m, hm⟩ := herr
    exact ⟨⟨fun _ => hinv, fun _ => ⟨m, by rw [hm]⟩⟩, fun _ => by rw [hm],
      fun h => absurd hinv h⟩
  · have hok := addOp_of_valid db title due description weekly monthly
      yearly remind now hinv
    refine ⟨⟨?_, fun h => absurd h hinv⟩, fun h => absurd h hinv,
      fun _ => ?_⟩
    · rintro ⟨m, hm⟩
      rw [hok] at hm
      exact absurd hm (by simp)
    · rw [hok]
      refine ⟨rfl, rfl, _, rfl, rfl, rfl, rfl, rfl, rfl, rfl, rfl, rfl,
        rfl, ?_, ?_⟩
      · rintro s rfl hne
        simp [storedDue, hne]
      · rintro (rfl | rfl) <;> simp [storedDue]

/-! ### Order facts about the sort key of `list` -/

theorem char_eq_of_not_lt {a b : Char} (h1 : ¬a < b) (h2 : ¬b < a) : a = b :=
  le_antisymm (le_of_not_lt h2) (le_of_not_lt h1)

theorem listLtB_trans : ∀ {xs ys zs : List Char},
    listLtB xs ys = true → listLtB ys zs = true → listLtB xs zs = true
  | [], _ :: _, _ :: _, _, _ => rfl
  | [], [], _, h1, _ => by simp [listLtB] at h1
  | [], _ :: _, [], _, h2 => by simp [listLtB] at h2
  | _ :: _, [], _, h1, _ => by simp [listLtB] at h1
  | _ :: _, _ :: _, [], _, h2 => by simp [listLtB] at h2
  | a :: as, b :: bs, c :: cs, h1, h2 => by
    by_cases hab : a < b
    · by_cases hbc : b < c
      · simp [listLtB, lt_trans hab hbc]
      · rw [listLtB] at h2
        rw [if_neg hbc] at h2
        by_cases hcb : c < b
        · rw [if_pos hcb] at h2; exact absurd h2 (by simp)
        · rw [char_eq_of_not_lt hbc hcb] at hab
          simp [listLtB, hab]
    · rw [listLtB, if_neg hab] at h1
      by_cases hba : b < a
      · rw [if_pos hba] at h1; exact absurd h1 (by simp)
      · rw [if_neg hba] at h1
        have hab' : a = b := char_eq_of_not_lt hab hba
        subst hab'
        by_cases hbc : a < c
        · simp [listLtB, hbc]
        · rw [listLtB, if_neg hbc] at h2 ⊢
          by_cases hcb : c < a
          · rw [if_pos hcb] at h2; exact absurd h2 (by simp)
          · rw [if_neg hcb] at h2 ⊢
            exact listLtB_trans h1 h2

theorem listLtB_eq_of_not_lt : ∀ {xs ys : List Char},
    listLtB xs ys = false → listLtB ys xs = false → xs = ys
  | [], [], _, _ => rfl
  | [], _ :: _, h1, _ => by simp [listLtB] at h1
  | _ :: _, [], _, h2 => by simp [listLtB] at h2
  | a :: as, b :: bs, h1, h2 => by
    by_cases hab : a < b
    · rw [listLtB, if_pos hab] at h1; exact absurd h1 (by simp)
    · by_cases hba : b < a
      · rw [listLtB, if_pos hba] at h2; exact absurd h2 (by simp)
      · have he : a = b := char_eq_of_not_lt hab hba
        subst he
        rw [listLtB, if_neg hab, if_neg hab] at h1 h2
        rw [listLtB_eq_of_not_lt h1 h2]

theorem dueKeyLt_trans {x y z : Option String}
    (h1 : dueKeyLt x y = true) (h2 : dueKeyLt y z = true) :
    dueKeyLt x z = true := by
  match x, y, z with
  | _, none, none => simp [dueKeyLt] at h2
  | none, some _, none => simp [dueKeyLt] at h2
  | some _, none, _ => simp [dueKeyLt] at h1
  | some _, some _, none => simp [dueKeyLt] at h2
  | none, some _, some _ => rfl
  | some s, some t, some u =>
    show listLtB s.data u.data = true
    exact listLtB_trans h1 h2

theorem dueKeyLt_eq_of_not_lt {x y : Option String}
    (h1 : dueKeyLt x y = false) (h2 : dueKeyLt y x = false) : x = y := by
  match x, y with
  | none, none => rfl
  | none, some _ => simp [dueKeyLt] at h1
  | some _, none => simp [dueKeyLt] at h2
  | some s, some t =>
    have : s.data = t.data := listLtB_eq_of_not_lt h1 h2
    exact congrArg some (String.ext this)

instance : IsTotal Row rowLe := ⟨fun a b => by
  by_cases h1 : dueKeyLt a.due_date b.due_date = true
  · exact Or.inl (Or.inl h1)
  by_cases h2 : dueKeyLt b.due_date a.due_date = true
  · exact Or.inr (Or.inl h2)
  have heq : a.due_date = b.due_date :=
    dueKeyLt_eq_of_not_lt (Bool.eq_false_iff.2 h1) (Bool.eq_false_iff.2 h2)
  rcases Nat.le_total a.id b.id with h | h
  · exact Or.inl (Or.inr ⟨heq, h⟩)
  · exact Or.inr (Or.inr ⟨heq.symm, h⟩)⟩

instance : IsTrans Row rowLe := ⟨fun a b c hab hbc => by
  rcases hab with h1 | ⟨e1, i1⟩ <;> rcases hbc with h2 | ⟨e2, i2⟩
  · exact Or.inl (dueKeyLt_trans h1 h2)
  · exact Or.inl (e2 ▸ h1)
  · exact Or.inl (e1 ▸ h2)
  · exact Or.inr ⟨e1.trans e2, le_trans i1 i2⟩⟩

/-- C8.  Every `list` result — either branch, any cutoff — is sorted by
the `ORDER BY due_date ASC, id ASC` preorder `rowLe`: ascending
`due_date` under SQLite's BINARY text order with NULL (absent) dates
first, ties on equal `due_date` resolved by ascending `id`. -/
theorem list_output_sorted (db : DB) (show_all : Bool) (cutoff : String) :
    List.Sorted rowLe (listOp db show_all cutoff) := by
  unfold listOp
  exact List.sorted_insertionSort rowLe _

/-- C10.  `add`'s `strptime('%Y-%m-%d')` check accepts the unpadded
string `"2025-1-5"` (which is not the canonical ISO form of January 5,
2025) and stores it verbatim; `list` compares stored strings
byte-wise, so the horizon filter excludes that task at calendar cutoff
2025-01-31 even though its date is within the horizon, and the ordering
places it after a task due `"2025-02-01"` even though January 5 precedes
February 1. -/
theorem unpadded_date_lexicographic_mismatch :
    parseYmd "2025-1-5" = some ⟨2025, 1, 5⟩ ∧
    "2025-1-5" ≠ isoDate ⟨2025, 1, 5⟩ ∧
    (addOp ⟨[], 1⟩ "rent" (some "2025-1-5") none false false false none
      0).db.tasks.map Task.due_date = [some "2025-1-5"] ∧
    (strLeB "2025-1-5" (isoDate ⟨2025, 1, 31⟩) = false ∧
      dateLe ⟨2025, 1, 5⟩ ⟨2025, 1, 31⟩ = true) ∧
    (listOp twoDateDB true "" =
        [⟨2, "t", some "2025-02-01", none⟩, ⟨1, "t", some "2025-1-5", none⟩] ∧
      dateLt ⟨2025, 1, 5⟩ ⟨2025, 2, 1⟩ = true) := by
  decide

/-! ### String order versus calendar order: the machinery for C9 -/

theorem char_lt_iff_toNat (a b : Char) : a < b ↔ a.toNat < b.toNat := Iff.rfl

theorem char_eq_of_toNat_eq {a b : Char} (h : a.toNat = b.toNat) : a = b :=
  Char.ext (UInt32.toNat.inj h)

theorem isDig_bounds {c : Char} (h : isDig c = true) :
    48 ≤ c.toNat ∧ c.toNat ≤ 57 := by
  simp only [isDig, Bool.and_eq_true, decide_eq_true_eq] at h
  exact ⟨h.1, h.2⟩

theorem digToNat_lt_iff {a b : Char} (ha : isDig a = true)
    (hb : isDig b = true) : digToNat a < digToNat b ↔ a < b := by
  obtain ⟨ha1, _⟩ := isDig_bounds ha
  obtain ⟨hb1, _⟩ := isDig_bounds hb
  rw [char_lt_iff_toNat]
  unfold digToNat
  omega

theorem digToNat_le9 {a : Char} (ha : isDig a = true) : digToNat a ≤ 9 := by
  obtain ⟨_, h2⟩ := isDig_bounds ha
  unfold digToNat
  omega

theorem digit_eq_of_digToNat_eq {a b : Char} (ha : isDig a = true)
    (hb : isDig b = true) (h : digToNat a = digToNat b) : a = b := by
  apply char_eq_of_toNat_eq
  obtain ⟨ha1, _⟩ := isDig_bounds ha
  obtain ⟨hb1, _⟩ := isDig_bounds hb
  unfold digToNat at h
  omega

theorem allDigs_cons {c : Char} {cs : List Char} :
    allDigs (c :: cs) = true ↔ isDig c = true ∧ allDigs cs = true := by
  simp [allDigs]

theorem fieldVal_cons (c : Char) (cs : List Char) :
    fieldVal (c :: cs) = digToNat c * 10 ^ cs.length + fieldVal cs := rfl

theorem fieldVal_lt_pow {cs : List Char} (h : allDigs cs = true) :
    fieldVal cs < 10 ^ cs.length := by
  induction cs with
  | nil => simp [fieldVal]
  | cons c cs ih =>
    obtain ⟨h1, h2⟩ := allDigs_cons.1 h
    have hd := digToNat_le9 h1
    have hv := ih h2
    have hK : (0:Nat) < 10 ^ cs.length := pow_pos (by omega) _
    calc digToNat c * 10 ^ cs.length + fieldVal cs
        < digToNat c * 10 ^ cs.length + 10 ^ cs.length := by omega
      _ = (digToNat c + 1) * 10 ^ cs.length := by ring
      _ ≤ 10 * 10 ^ cs.length := Nat.mul_le_mul_right _ (by omega)
      _ = 10 ^ (c :: cs).length := by rw [List.length_cons, pow_succ]; ring

theorem val_head_lt {da db va vb K : Nat} (h : da < db) (hva : va < K) :
    da * K + va < db * K + vb := by
  have h1 : (da + 1) * K = da * K + K := by ring
  have h2 : (da + 1) * K ≤ db * K := Nat.mul_le_mul_right K h
  omega

theorem digits_lt_iff : ∀ {xs ys : List Char}, allDigs xs = true →
    allDigs ys = true → xs.length = ys.length →
    (listLtB xs ys = true ↔ fieldVal xs < fieldVal ys)
  | [], [], _, _, _ => by simp [listLtB, fieldVal]
  | [], _ :: _, _, _, h => by simp at h
  | _ :: _, [], _, _, h => by simp at h
  | a :: as, b :: bs, hx, hy, hlen => by
    obtain ⟨ha, has⟩ := allDigs_cons.1 hx
    obtain ⟨hb, hbs⟩ := allDigs_cons.1 hy
    have hlen' : as.length = bs.length := by simpa using hlen
    rcases lt_trichotomy a b with hab | hab | hab
    · have hL : listLtB (a :: as) (b :: bs) = true := by
        simp [listLtB, hab]
      rw [hL]
      simp only [true_iff]
      rw [fieldVal_cons, fieldVal_cons, hlen']
      exact val_head_lt ((digToNat_lt_iff ha hb).2 hab)
        (hlen' ▸ fieldVal_lt_pow has)
    · subst hab
      have hL : listLtB (a :: as) (a :: bs) = listLtB as bs := by
        simp [listLtB]
      rw [hL, digits_lt_iff has hbs hlen']
      rw [fieldVal_cons, fieldVal_cons, hlen']
      omega
    · have hL : listLtB (a :: as) (b :: bs) = false := by
        have h1 : ¬a < b := lt_asymm hab
        simp [listLtB, h1, hab]
      rw [hL]
      simp only [Bool.false_eq_true, false_iff, not_lt]
      rw [fieldVal_cons, fieldVal_cons, hlen']
      exact le_of_lt (val_head_lt ((digToNat_lt_iff hb ha).2 hab)
        (hlen'.symm ▸ fieldVal_lt_pow hbs))

theorem digits_eq_of_val_eq {xs ys : List Char} (hx : allDigs xs = true)
    (hy : allDigs ys = true) (hlen : xs.length = ys.length)
    (h : fieldVal xs = fieldVal ys) : xs = ys := by
  by_cases l1 : listLtB xs ys = true
  · exact absurd ((digits_lt_iff hx hy hlen).1 l1) (by omega)
  · by_cases l2 : listLtB ys xs = true
    · exact absurd ((digits_lt_iff hy hx hlen.symm).1 l2) (by omega)
    · exact listLtB_eq_of_not_lt (Bool.eq_false_iff.2 l1) (Bool.eq_false_iff.2 l2)

theorem listLtB_cons_same (c : Char) (u v : List Char) :
    listLtB (c :: u) (c :: v) = listLtB u v := by
  simp [listLtB]

theorem listLtB_cons_false_not_lt {a b : Char} {as bs : List Char}
    (h : listLtB (a :: as) (b :: bs) = false) : ¬a < b := by
  intro hab
  simp [listLtB, hab] at h

theorem listLtB_append_iff : ∀ (xs ys as bs : List Char),
    xs.length = ys.length →
    (listLtB (xs ++ as) (ys ++ bs) = true ↔
      (listLtB xs ys = true ∨ (xs = ys ∧ listLtB as bs = true)))
  | [], [], as, bs, _ => by simp [listLtB]
  | [], _ :: _, _, _, h => by simp at h
  | _ :: _, [], _, _, h => by simp at h
  | a :: xs, b :: ys, as, bs, h => by
    have h' : xs.length = ys.length := by simpa using h
    rcases lt_trichotomy a b with hab | hab | hab
    · simp [listLtB, hab, List.cons_append]
    · subst hab
      rw [List.cons_append, List.cons_append, listLtB_cons_same,
        listLtB_cons_same, listLtB_append_iff xs ys as bs h']
      simp [List.cons.injEq]
    · have h1 : ¬a < b := lt_asymm hab
      have hL : listLtB (a :: (xs ++ as)) (b :: (ys ++ bs)) = false := by
        simp [listLtB, h1, hab]
      have hL2 : listLtB (a :: xs) (b :: ys) = false := by
        simp [listLtB, h1, hab]
      rw [List.cons_append, List.cons_append, hL, hL2]
      simp [List.cons.injEq]
      intro he
      exact absurd he (ne_of_gt hab)

theorem digToNat_digitChar : ∀ k < 10, digToNat (digitChar k) = k := by decide

theorem isDig_digitChar : ∀ k < 10, isDig (digitChar k) = true := by decide

theorem pad2_length (n : Nat) : (pad2 n).length = 2 := rfl

theorem pad4_length (n : Nat) : (pad4 n).length = 4 := rfl

theorem allDigs_pad2 {n : Nat} (h : n < 100) : allDigs (pad2 n) = true := by
  have h1 := isDig_digitChar (n / 10) (by omega)
  have h2 := isDig_digitChar (n % 10) (by omega)
  simp [pad2, allDigs, h1, h2]

theorem allDigs_pad4 {n : Nat} (h : n < 10000) : allDigs (pad4 n) = true := by
  have h1 := isDig_digitChar (n / 1000) (by omega)
  have h2 := isDig_digitChar (n / 100 % 10) (by omega)
  have h3 := isDig_digitChar (n / 10 % 10) (by omega)
  have h4 := isDig_digitChar (n % 10) (by omega)
  simp [pad4, allDigs, h1, h2, h3, h4]

theorem fieldVal_pad2 {n : Nat} (h : n < 100) : fieldVal (pad2 n) = n := by
  have h1 := digToNat_digitChar (n / 10) (by omega)
  have h2 := digToNat_digitChar (n % 10) (by omega)
  simp [pad2, fieldVal, h1, h2]
  omega

theorem fieldVal_pad4 {n : Nat} (h : n < 10000) : fieldVal (pad4 n) = n := by
  have h1 := digToNat_digitChar (n / 1000) (by omega)
  have h2 := digToNat_digitChar (n / 100 % 10) (by omega)
  have h3 := digToNat_digitChar (n / 10 % 10) (by omega)
  have h4 := digToNat_digitChar (n % 10) (by omega)
  simp [pad4, fieldVal, h1, h2, h3, h4]
  omega

theorem splitDash_ne_nil : ∀ cs, splitDash cs ≠ []
  | [] => by simp [splitDash]
  | c :: rest => by
    unfold splitDash
    by_cases h : c = '-'
    · simp [h]
    · rw [if_neg h]
      cases hs : splitDash rest <;> simp

theorem joinDash_splitDash : ∀ cs, joinDash (splitDash cs) = cs
  | [] => rfl
  | c :: rest => by
    obtain ⟨s0, srest, hS⟩ : ∃ s0 srest, splitDash rest = s0 :: srest := by
      cases hS : splitDash rest with
      | nil => exact absurd hS (splitDash_ne_nil rest)
      | cons s0 srest => exact ⟨s0, srest, rfl⟩
    have hrec : joinDash (splitDash rest) = rest := joinDash_splitDash rest
    unfold splitDash
    by_cases h : c = '-'
    · subst h
      rw [if_pos rfl, hS]
      show [] ++ '-' :: joinDash (s0 :: srest) = '-' :: rest
      rw [← hS, hrec]
      simp
    · rw [if_neg h, hS]
      cases srest with
      | nil =>
        show c :: s0 = c :: rest
        rw [hS] at hrec
        simp [joinDash] at hrec
        rw [hrec]
      | cons s1 ss =>
        show (c :: s0) ++ '-' :: joinDash (s1 :: ss) = c :: rest
        rw [hS] at hrec
        simp only [joinDash] at hrec
        simp [hrec]

theorem splitDash_three {cs a b c : List Char}
    (h : splitDash cs = [a, b, c]) : cs = a ++ '-' :: (b ++ '-' :: c) := by
  have hj := joinDash_splitDash cs
  rw [h] at hj
  simpa [joinDash] using hj.symm


theorem monthLength_le31 (y m : Nat) : monthLength y m ≤ 31 := by
  unfold monthLength
  split_ifs <;> omega

theorem parseYmd_shape {s : String} {d : DateYMD} (h : parseYmd s = some d) :
    ∃ ys ms ds, s.data = ys ++ '-' :: (ms ++ '-' :: ds) ∧
      ys.length = 4 ∧ allDigs ys = true ∧ fieldVal ys = d.year ∧
      ms.length ≤ 2 ∧ allDigs ms = true ∧ fieldVal ms = d.month ∧
      ds.length ≤ 2 ∧ allDigs ds = true ∧ fieldVal ds = d.day ∧
      1 ≤ d.year ∧ 1 ≤ d.month ∧ d.month ≤ 12 ∧ 1 ≤ d.day ∧
      d.day ≤ monthLength d.year d.month := by
  unfold parseYmd at h
  split at h
  case h_2 => exact absurd h (by simp)
  case h_1 ys ms ds heq =>
    split at h
    case isFalse => exact absurd h (by simp)
    case isTrue hc1 =>
      split at h
      case isFalse => exact absurd h (by simp)
      case isTrue hc2 =>
        simp only [Bool.and_eq_true, decide_eq_true_eq] at hc1 hc2
        obtain ⟨⟨⟨⟨⟨hy4, hyd⟩, hm2⟩, hmd⟩, hd2⟩, hdd⟩ := hc1
        obtain ⟨⟨⟨⟨h1y, h1m⟩, h12⟩, h1d⟩, hdm⟩ := hc2
        injection h with h'
        subst h'
        exact ⟨ys, ms, ds, splitDash_three heq, hy4, hyd, rfl, hm2, hmd,
          rfl, hd2, hdd, rfl, h1y, h1m, h12, h1d, hdm⟩

theorem dateLt_iff (a b : DateYMD) : dateLt a b = true ↔
    (a.year < b.year ∨ (a.year = b.year ∧ (a.month < b.month ∨
      (a.month = b.month ∧ a.day < b.day)))) := by
  obtain ⟨a1, a2, a3⟩ := a
  obtain ⟨b1, b2, b3⟩ := b
  simp [dateLt, Bool.or_eq_true, Bool.and_eq_true, decide_eq_true_eq,
    beq_iff_eq]

theorem dateLe_iff (a b : DateYMD) : dateLe a b = true ↔
    (a.year < b.year ∨ (a.year = b.year ∧ (a.month < b.month ∨
      (a.month = b.month ∧ a.day ≤ b.day)))) := by
  obtain ⟨a1, a2, a3⟩ := a
  obtain ⟨b1, b2, b3⟩ := b
  simp [dateLe, dateLt, DateYMD.mk.injEq, Bool.or_eq_true,
    Bool.and_eq_true, decide_eq_true_eq, beq_iff_eq]
  omega

theorem pad4_lt_iff {u v : Nat} (hu : u < 10000) (hv : v < 10000) :
    listLtB (pad4 u) (pad4 v) = true ↔ u < v := by
  rw [digits_lt_iff (allDigs_pad4 hu) (allDigs_pad4 hv)
    (show (pad4 u).length = (pad4 v).length from rfl),
    fieldVal_pad4 hu, fieldVal_pad4 hv]

theorem pad2_lt_iff {u v : Nat} (hu : u < 100) (hv : v < 100) :
    listLtB (pad2 u) (pad2 v) = true ↔ u < v := by
  rw [digits_lt_iff (allDigs_pad2 hu) (allDigs_pad2 hv)
    (show (pad2 u).length = (pad2 v).length from rfl),
    fieldVal_pad2 hu, fieldVal_pad2 hv]

theorem pad4_inj {u v : Nat} (hu : u < 10000) (hv : v < 10000)
    (h : pad4 u = pad4 v) : u = v := by
  have h2 := congrArg fieldVal h
  rwa [fieldVal_pad4 hu, fieldVal_pad4 hv] at h2

theorem pad2_inj {u v : Nat} (hu : u < 100) (hv : v < 100)
    (h : pad2 u = pad2 v) : u = v := by
  have h2 := congrArg fieldVal h
  rwa [fieldVal_pad2 hu, fieldVal_pad2 hv] at h2

theorem isoDate_data (d : DateYMD) :
    (isoDate d).data =
      pad4 d.year ++ '-' :: (pad2 d.month ++ '-' :: pad2 d.day) := rfl

/-- Core soundness of the horizon filter on accepted due strings: a
stored string accepted by `strptime` that is byte-wise at most the
padded ISO cutoff denotes a calendar date at most the cutoff date. -/
theorem parse_le_of_str_le {s : String} {d c : DateYMD}
    (hp : parseYmd s = some d) (hc : validDate c)
    (hle : strLeB s (isoDate c) = true) : dateLe d c = true := by
  obtain ⟨ys, ms, ds, hsd, hy4, hyd, hyv, hm2, hmd, hmv, hd2, hdd, hdv,
    h1y, h1m, h12, h1d, hdm'⟩ := parseYmd_shape hp
  obtain ⟨hcy1, hcy2, hcm1, hcm2, hcd1, hcd2⟩ := hc
  have hcd31 : c.day ≤ 31 := le_trans hcd2 (monthLength_le31 _ _)
  have hy10000 : d.year < 10000 := by
    have hb := fieldVal_lt_pow hyd
    rw [hy4, hyv] at hb
    omega
  have hlt : listLtB (isoDate c).data s.data = false := by
    have hx : strLtB (isoDate c) s = false := by
      simpa [strLeB, Bool.not_eq_true'] using hle
    simpa [strLtB] using hx
  rw [isoDate_data, hsd] at hlt
  have hiff := listLtB_append_iff (pad4 c.year) ys
    ('-' :: (pad2 c.month ++ '-' :: pad2 c.day)) ('-' :: (ms ++ '-' :: ds))
    (show (pad4 c.year).length = ys.length by rw [pad4_length, hy4])
  have hnot : ¬(listLtB (pad4 c.year) ys = true ∨
      (pad4 c.year = ys ∧
        listLtB ('-' :: (pad2 c.month ++ '-' :: pad2 c.day))
          ('-' :: (ms ++ '-' :: ds)) = true)) := by
    rw [← hiff, hlt]
    simp
  have hyle : d.year ≤ c.year := by
    by_contra hgt
    push_neg at hgt
    exact hnot (Or.inl ((digits_lt_iff
      (allDigs_pad4 (show c.year < 10000 by omega)) hyd
      (show (pad4 c.year).length = ys.length by rw [pad4_length, hy4])).2
      (by rw [fieldVal_pad4 (show c.year < 10000 by omega), hyv]; omega)))
  rcases lt_or_eq_of_le hyle with hylt | hyeq
  · rw [dateLe_iff]
    exact Or.inl hylt
  · have hyseq : pad4 c.year = ys :=
      digits_eq_of_val_eq (allDigs_pad4 (show c.year < 10000 by omega)) hyd
        (show (pad4 c.year).length = ys.length by rw [pad4_length, hy4])
        (by rw [fieldVal_pad4 (show c.year < 10000 by omega), hyv, hyeq])
    have hrest : listLtB (pad2 c.month ++ '-' :: pad2 c.day)
        (ms ++ '-' :: ds) = false := by
      by_contra hx
      rw [Bool.not_eq_false] at hx
      exact hnot (Or.inr ⟨hyseq, by rwa [listLtB_cons_same]⟩)
    match ms, hm2, hmd, hmv with
    | [], _, _, hmv =>
      rw [show fieldVal [] = 0 from rfl] at hmv
      omega
    | [m0], _, hmd, hmv =>
      have hm0 : isDig m0 = true := (allDigs_cons.1 hmd).1
      have hmval : d.month = digToNat m0 := by
        rw [← hmv, fieldVal_cons]
        simp [fieldVal]
      have hh : ¬digitChar (c.month / 10) < m0 := by
        apply listLtB_cons_false_not_lt
        show listLtB (digitChar (c.month / 10) ::
          (digitChar (c.month % 10) :: '-' :: pad2 c.day))
          (m0 :: '-' :: ds) = false
        simpa [pad2] using hrest
      have hdig : isDig (digitChar (c.month / 10)) = true :=
        isDig_digitChar _ (show c.month / 10 < 10 by omega)
      have hdigle : digToNat m0 ≤ digToNat (digitChar (c.month / 10)) := by
        by_contra hgt
        push_neg at hgt
        exact hh ((digToNat_lt_iff hdig hm0).1 hgt)
      have hdc : digToNat (digitChar (c.month / 10)) = c.month / 10 :=
        digToNat_digitChar _ (show c.month / 10 < 10 by omega)
      have hm9 : digToNat m0 ≤ 9 := digToNat_le9 hm0
      rw [dateLe_iff]
      exact Or.inr ⟨hyeq, Or.inl (by omega)⟩
    | m0 :: m1 :: mrest, hm2, hmd, hmv =>
      have hmr : mrest = [] := by
        cases mrest with
        | nil => rfl
        | cons _ _ => simp at hm2
      subst hmr
      have hiff2 := listLtB_append_iff (pad2 c.month) [m0, m1]
        ('-' :: pad2 c.day) ('-' :: ds)
        (show (pad2 c.month).length = [m0, m1].length from rfl)
      have hnot2 : ¬(listLtB (pad2 c.month) [m0, m1] = true ∨
          (pad2 c.month = [m0, m1] ∧
            listLtB ('-' :: pad2 c.day) ('-' :: ds) = true)) := by
        rw [← hiff2, hrest]
        simp
      have hmle : d.month ≤ c.month := by
        by_contra hgt
        push_neg at hgt
        exact hnot2 (Or.inl ((digits_lt_iff
          (allDigs_pad2 (show c.month < 100 by omega)) hmd
          (show (pad2 c.month).length = [m0, m1].length from rfl)).2
          (by rw [fieldVal_pad2 (show c.month < 100 by omega), hmv]
              omega)))
      rcases lt_or_eq_of_le hmle with hmlt | hmeq
      · rw [dateLe_iff]
        exact Or.inr ⟨hyeq, Or.inl hmlt⟩
      · have hmseq : pad2 c.month = [m0, m1] :=
          digits_eq_of_val_eq (allDigs_pad2 (show c.month < 100 by omega))
            hmd (show (pad2 c.month).length = [m0, m1].length from rfl)
            (by rw [fieldVal_pad2 (show c.month < 100 by omega), hmv, hmeq])
        have hdayf : listLtB (pad2 c.day) ds = false := by
          by_contra hx
          rw [Bool.not_eq_false] at hx
          exact hnot2 (Or.inr ⟨hmseq, by rwa [listLtB_cons_same]⟩)
        match ds, hd2, hdd, hdv with
        | [], _, _, hdv =>
          rw [show fieldVal [] = 0 from rfl] at hdv
          omega
        | [d0], _, hdd, hdv =>
          have hd0 : isDig d0 = true := (allDigs_cons.1 hdd).1
          have hdval : d.day = digToNat d0 := by
            rw [← hdv, fieldVal_cons]
            simp [fieldVal]
          have hh : ¬digitChar (c.day / 10) < d0 := by
            apply listLtB_cons_false_not_lt
            show listLtB (digitChar (c.day / 10) ::
              [digitChar (c.day % 10)]) (d0 :: []) = false
            simpa [pad2] using hdayf
          have hdig : isDig (digitChar (c.day / 10)) = true :=
            isDig_digitChar _ (show c.day / 10 < 10 by omega)
          have hdigle : digToNat d0 ≤ digToNat (digitChar (c.day / 10)) := by
            by_contra hgt
            push_neg at hgt
            exact hh ((digToNat_lt_iff hdig hd0).1 hgt)
          have hdc : digToNat (digitChar (c.day / 10)) = c.day / 10 :=
            digToNat_digitChar _ (show c.day / 10 < 10 by omega)
          rw [dateLe_iff]
          exact Or.inr ⟨hyeq, Or.inr ⟨hmeq, by omega⟩⟩
        | d0 :: d1 :: drest, hd2, hdd, hdv =>
          have hdr : drest = [] := by
            cases drest with
            | nil => rfl
            | cons _ _ => simp at hd2
          subst hdr
          have hdle : d.day ≤ c.day := by
            by_contra hgt
            push_neg at hgt
            have hx := (digits_lt_iff
              (allDigs_pad2 (show c.day < 100 by omega)) hdd
              (show (pad2 c.day).length = [d0, d1].length from rfl)).2
              (by rw [fieldVal_pad2 (show c.day < 100 by omega), hdv]
                  omega)
            rw [hx] at hdayf
            exact absurd hdayf (by simp)
          rw [dateLe_iff]
          exact Or.inr ⟨hyeq, Or.inr ⟨hmeq, hdle⟩⟩

theorem isoLt_iff {a b : DateYMD} (ha : validDate a) (hb : validDate b) :
    strLtB (isoDate a) (isoDate b) = true ↔ dateLt a b = true := by
  obtain ⟨ha1, ha2, ha3, ha4, ha5, ha6⟩ := ha
  obtain ⟨hb1, hb2, hb3, hb4, hb5, hb6⟩ := hb
  have had : a.day ≤ 31 := le_trans ha6 (monthLength_le31 _ _)
  have hbd : b.day ≤ 31 := le_trans hb6 (monthLength_le31 _ _)
  rw [strLtB, isoDate_data, isoDate_data,
    listLtB_append_iff (pad4 a.year) (pad4 b.year) _ _ rfl,
    listLtB_cons_same,
    listLtB_append_iff (pad2 a.month) (pad2 b.month) _ _ rfl,
    listLtB_cons_same,
    pad4_lt_iff (show a.year < 10000 by omega) (show b.year < 10000 by omega),
    pad2_lt_iff (show a.month < 100 by omega) (show b.month < 100 by omega),
    pad2_lt_iff (show a.day < 100 by omega) (show b.day < 100 by omega),
    dateLt_iff]
  constructor
  · rintro (h | ⟨he, h | ⟨he2, h⟩⟩)
    · exact Or.inl h
    · exact Or.inr ⟨pad4_inj (show a.year < 10000 by omega)
        (show b.year < 10000 by omega) he, Or.inl h⟩
    · exact Or.inr ⟨pad4_inj (show a.year < 10000 by omega)
        (show b.year < 10000 by omega) he,
        Or.inr ⟨pad2_inj (show a.month < 100 by omega)
          (show b.month < 100 by omega) he2, h⟩⟩
  · rintro (h | ⟨he, h | ⟨he2, h⟩⟩)
    · exact Or.inl h
    · exact Or.inr ⟨he ▸ rfl, Or.inl h⟩
    · exact Or.inr ⟨he ▸ rfl, Or.inr ⟨he2 ▸ rfl, h⟩⟩

theorem dateLe_eq_not_dateLt (a b : DateYMD) :
    dateLe a b = true ↔ ¬dateLt b a = true := by
  rw [dateLe_iff, dateLt_iff]
  omega

theorem isoLe_iff_dateLe {a b : DateYMD} (ha : validDate a)
    (hb : validDate b) :
    strLeB (isoDate a) (isoDate b) = true ↔ dateLe a b = true := by
  rw [dateLe_eq_not_dateLt,
    show strLeB (isoDate a) (isoDate b) =
      !strLtB (isoDate b) (isoDate a) from rfl,
    Bool.not_eq_true']
  constructor
  · intro h hlt
    rw [← isoLt_iff hb ha, h] at hlt
    exact absurd hlt (by simp)
  · intro h
    cases hx : strLtB (isoDate b) (isoDate a)
    · rfl
    · exact absurd ((isoLt_iff hb ha).1 hx) h

theorem listKeep_false_iff (cutoff : String) (t : Task) :
    listKeep false cutoff t = true ↔
      t.completed = false ∧ (t.due_date = none ∨
        ∃ s, t.due_date = some s ∧ strLeB s cutoff = true) := by
  cases hdue : t.due_date <;>
    simp [listKeep, hdue, Bool.and_eq_true, Bool.not_eq_true']

theorem rowOf_due (t : Task) : (rowOf t).due_date = t.due_date := rfl

/-- C9 (amended).  With `show_all = false` and cutoff date `c`
(= today + `horizon_days`, formatted by `isoformat()`), `list` returns
exactly the rows of tasks with `completed = false` whose stored
`due_date` is absent or byte-wise at most the ISO cutoff string; since
`add` also accepts unpadded date strings, the calendar reading survives
one-sidedly: no returned row carries an accepted due string denoting a
date after `c` (so `horizon_days = 0` never returns a task due tomorrow
or later), and on canonically padded stored dates the filter agrees
exactly with calendar comparison. -/
theorem list_filter_amended (db : DB) (c : DateYMD) (hc : validDate c) :
    (∀ r, r ∈ listOp db false (isoDate c) ↔
      ∃ t ∈ db.tasks, rowOf t = r ∧ t.completed = false ∧
        (t.due_date = none ∨
          ∃ s, t.due_date = some s ∧ strLeB s (isoDate c) = true)) ∧
    (∀ r ∈ listOp db false (isoDate c), ∀ s dd, r.due_date = some s →
      parseYmd s = some dd → dateLe dd c = true) ∧
    (∀ a, validDate a →
      (strLeB (isoDate a) (isoDate c) = true ↔ dateLe a c = true)) := by
  have hmem : ∀ r, r ∈ listOp db false (isoDate c) ↔
      ∃ t ∈ db.tasks, rowOf t = r ∧ t.completed = false ∧
        (t.due_date = none ∨
          ∃ s, t.due_date = some s ∧ strLeB s (isoDate c) = true) := by
    intro r
    unfold listOp
    rw [List.mem_insertionSort]
    simp only [List.mem_map, List.mem_filter]
    constructor
    · rintro ⟨t, ⟨ht, hk⟩, rfl⟩
      obtain ⟨h1, h2⟩ := (listKeep_false_iff _ t).1 hk
      exact ⟨t, ht, rfl, h1, h2⟩
    · rintro ⟨t, ht, rfl, h1, h2⟩
      exact ⟨t, ⟨ht, (listKeep_false_iff _ t).2 ⟨h1, h2⟩⟩, rfl⟩
  refine ⟨hmem, ?_, fun a ha => isoLe_iff_dateLe ha hc⟩
  intro r hr s dd hdue hp
  obtain ⟨t, ht, hrow, h1, h2⟩ := (hmem r).1 hr
  rcases h2 with hnone | ⟨s2, hs2, hle⟩
  · rw [← hrow, rowOf_due, hnone] at hdue
    exact absurd hdue (by simp)
  · rw [← hrow, rowOf_due, hs2] at hdue
    injection hdue with hdue'
    subst hdue'
    exact parse_le_of_str_le hp hc hle

/-- C9 amended witness: on `sampleDB` with cutoff 2025-01-31, the undated
incomplete task's row is returned, and the canonical-coincidence part
evaluated at the date 2025-01-05 agrees with calendar comparison. -/
theorem list_filter_amended_witness :
    (⟨1, "t", none, none⟩ : Row) ∈ listOp sampleDB false
      (isoDate ⟨2025, 1, 31⟩) ∧
    (strLeB (isoDate ⟨2025, 1, 5⟩) (isoDate ⟨2025, 1, 31⟩) = true ↔
      dateLe ⟨2025, 1, 5⟩ ⟨2025, 1, 31⟩ = true) := by
  constructor
  · exact ((list_filter_amended sampleDB ⟨2025, 1, 31⟩ (by decide)).1
      ⟨1, "t", none, none⟩).2 ⟨sampleTask, by decide, rfl, rfl, Or.inl rfl⟩
  · exact (list_filter_amended sampleDB ⟨2025, 1, 31⟩ (by decide)).2.2
      ⟨2025, 1, 5⟩ (by decide)

/-- C5 amended witness: `add_validation_amended` evaluated on concrete
inputs — a fully valid add succeeds with the new id, and an add with two
recurrence flags leaves the store untouched. -/
theorem add_validation_amended_witness :
    (addOp ⟨[], 1⟩ "pay" (some "2025-01-05") none false false false
      (some 3) 0).result = .ok 1 ∧
    (addOp ⟨[], 1⟩ "x" none none true true false none 0).db = ⟨[], 1⟩ := by
  constructor
  · refine ((add_validation_amended ⟨[], 1⟩ "pay" (some "2025-01-05") none
      false false false (some 3) 0).2.2 ?_).1
    rintro (⟨s, hs, hne, hp⟩ | h | ⟨r, hr, hneg⟩)
    · rw [← Option.some.inj hs] at hp
      exact absurd hp (by decide)
    · exact absurd h (by decide)
    · rw [← Option.some.inj hr] at hneg
      exact absurd hneg (by decide)
  · exact (add_validation_amended ⟨[], 1⟩ "x" none none true true false
      none 0).2.1 (Or.inr (Or.inl (by decide)))


end Khumbuza
